import Mathlib

/-!
Verification of the media-to-text video analysis pipeline
(`VideoProcessingService` in `src/services/audioProcessingService.ts`).

The pipeline is embedded shallowly: every method becomes a pure Lean
function, the external collaborators (ffmpeg/ffprobe subprocesses, the
vision, summary and transcription services, the filesystem) are an explicit
`Env` of call outcomes, and each stage additionally returns the list of
external calls it issued and the progress events it emitted, so that the
theorems can speak about call counts, call arguments and event traces.

JavaScript floating-point arithmetic on the few fractional quantities
(probed duration, size heuristics, progress percentages) is exact in the
source (small integer numerators and denominators), so it is embedded as
exact fraction arithmetic (`Frac`), with bridge lemmas relating every
operation to the corresponding operation on `ℚ`.
-/

namespace VideoPipeline

/-- Exact value of a JavaScript number as an unreduced fraction
`num / den`.  All fraction arithmetic the pipeline performs (division and
multiplication by whole numbers, `Math.max`, `Math.floor`, `Math.ceil`,
`Math.round`) is defined on this representation so that every definition
evaluates by kernel reduction; `Frac.toRat` interprets it in `ℚ` and the
`toRat` lemmas below prove each operation correct. -/
structure Frac where
  num : ℤ
  den : ℕ
deriving DecidableEq

/-- Embed a whole number. -/
def Frac.ofNat (n : ℕ) : Frac := ⟨n, 1⟩

/-- Division of a fraction by a whole number (every division performed by
the pipeline has a whole-number divisor). -/
def Frac.divNat (f : Frac) (n : ℕ) : Frac := ⟨f.num, f.den * n⟩

/-- Multiplication of a fraction by a whole number. -/
def Frac.mulNat (f : Frac) (n : ℕ) : Frac := ⟨f.num * n, f.den⟩

/-- JavaScript `Math.max` on exact fraction values (cross multiplication;
denominators are natural numbers, hence nonnegative). -/
def Frac.max (a b : Frac) : Frac :=
  if a.num * (b.den : ℤ) ≤ b.num * (a.den : ℤ) then b else a

/-- JavaScript `Math.floor` on an exact fraction value: floor division of
the numerator by the denominator. -/
def Frac.floor (f : Frac) : ℤ := Int.fdiv f.num f.den

/-- JavaScript `Math.ceil` on an exact fraction value. -/
def Frac.ceil (f : Frac) : ℤ := -(Int.fdiv (-f.num) f.den)

/-- JavaScript `Math.round` on an exact fraction value:
`floor (f + 1/2)`, which is the JS semantics for the nonnegative values it
is applied to here. -/
def Frac.round (f : Frac) : ℤ := Int.fdiv (2 * f.num + f.den) (2 * f.den)

/-- Interpretation of a `Frac` in `ℚ`. -/
def Frac.toRat (f : Frac) : ℚ := (f.num : ℚ) / (f.den : ℚ)

/-- Byte buffers (Node `Buffer` contents). -/
abbrev Buf := List ℕ

/-- Lookup table of the 64 base64 digits. -/
def base64Table : List Char :=
  "ABCDEFGHIJKLMNOPQRSTUVWXYZabcdefghijklmnopqrstuvwxyz0123456789+/".data

/-- Base64 digit for a 6-bit value. -/
def base64Char (n : ℕ) : Char := base64Table.getD n 'A'

/-- Node `Buffer.toString` with encoding base64 (RFC 4648 with padding),
used for the thumbnail in the result object. -/
def base64Encode : Buf → String
  | [] => ""
  | [a] => String.mk [base64Char (a / 4), base64Char (a % 4 * 16), '=', '=']
  | [a, b] =>
      String.mk [base64Char (a / 4), base64Char (a % 4 * 16 + b / 16),
        base64Char (b % 16 * 4), '=']
  | a :: b :: c :: rest =>
      String.mk [base64Char (a / 4), base64Char (a % 4 * 16 + b / 16),
        base64Char (b % 16 * 4 + c / 64), base64Char (c % 64)] ++ base64Encode rest

/-- Occurrence test of `pat` at any position of the character list `hay`
(JavaScript `String.prototype.includes`). -/
def subAt (pat : List Char) : List Char → Bool
  | [] => pat.isPrefixOf []
  | c :: rest => pat.isPrefixOf (c :: rest) || subAt pat rest

/-- Substring occurrence test on strings. -/
def strContains (hay pat : String) : Bool := subAt pat.data hay.data

/-- JavaScript `split` at the newline character
(`analysis.split("\n")` in `parseFrameAnalysis`). -/
def splitOnNewline : List Char → List (List Char)
  | [] => [[]]
  | c :: rest =>
    if c = '\n' then [] :: splitOnNewline rest
    else
      match splitOnNewline rest with
      | [] => [[c]]
      | l :: ls => (c :: l) :: ls

/-- JavaScript `String.prototype.trim`: strip whitespace from both ends. -/
def trimChars (l : List Char) : List Char :=
  ((l.dropWhile Char.isWhitespace).reverse.dropWhile Char.isWhitespace).reverse

/-- Case-insensitive marker test used by the response parser:
`trimmed.toLowerCase().includes(pat)` (the markers searched for are already
lower case). -/
def lineHas (line : List Char) (pat : String) : Bool :=
  subAt pat.data (line.map Char.toLower)

/-- Drop characters up to and including the first colon. -/
def dropThroughColon : List Char → List Char
  | [] => []
  | c :: rest => if c = ':' then rest else dropThroughColon rest

/-- JavaScript `trimmed.replace` of the regex matching a leading label up
to the first colon plus following whitespace: if the line has a colon, the
label, the colon and the whitespace after it are removed; a line with no
colon is unchanged. -/
def stripLabel (l : List Char) : List Char :=
  if l.contains ':' then (dropThroughColon l).dropWhile Char.isWhitespace else l

/-- Value of the `currentSection` variable of the response parser
(initially the empty string, then one of the two marker kinds). -/
inductive ParseSection where
  | start
  | keyMoments
  | descriptions
deriving DecidableEq

/-- Line loop of `parseFrameAnalysis`: accumulates key moments and
descriptions exactly as the source does, keeping the last marker seen in
the `ParseSection` state. -/
def parseLines : List (List Char) → ParseSection → List String → List String →
    List String × List String
  | [], _, keyMoments, descriptions => (keyMoments, descriptions)
  | line :: rest, sec, keyMoments, descriptions =>
    let trimmed := trimChars line
    if trimmed = [] then parseLines rest sec keyMoments descriptions
    else if lineHas trimmed "key moment" || lineHas trimmed "important" then
      let moment := trimChars (stripLabel trimmed)
      parseLines rest ParseSection.keyMoments
        (if moment = [] then keyMoments else keyMoments ++ [String.mk moment])
        descriptions
    else if lineHas trimmed "frame" || lineHas trimmed "scene" then
      parseLines rest ParseSection.descriptions keyMoments
        (descriptions ++ [String.mk trimmed])
    else if sec = ParseSection.keyMoments ∧ trimmed.length > 10 then
      parseLines rest sec (keyMoments ++ [String.mk trimmed]) descriptions
    else if sec = ParseSection.descriptions ∧ trimmed.length > 10 then
      parseLines rest sec keyMoments (descriptions ++ [String.mk trimmed])
    else parseLines rest sec keyMoments descriptions

/-- Heuristic line parser for a vision-model response
(`parseFrameAnalysis`): marker lines select a section, other long lines go
to the active section; if nothing at all was recognised, the whole response
becomes the single description. -/
def parseFrameAnalysis (analysis : String) : List String × List String :=
  let parsed := parseLines (splitOnNewline analysis.data) ParseSection.start [] []
  if parsed.1 = [] ∧ parsed.2 = [] then ([], [analysis]) else parsed

/-- Fuel-driven core of `chunkArray`; one step per produced chunk.  The
fuel `array.length` given by `chunkArray` suffices for any positive chunk
size (the service only uses size 10; for size 0 the JS loop would not
terminate). -/
def chunkGo {α : Type} : ℕ → List α → ℕ → List (List α)
  | 0, _, _ => []
  | _ + 1, [], _ => []
  | fuel + 1, x :: xs, size => (x :: xs).take size :: chunkGo fuel ((x :: xs).drop size) size

/-- The `chunkArray` helper of the service: successive slices of at most
`size` elements (`array.slice(i, i + size)` for `i = 0, size, 2*size, ...`). -/
def chunkArray {α : Type} (array : List α) (size : ℕ) : List (List α) :=
  chunkGo array.length array size

/-- The fixed visual-analysis fallback installed when the frame-analysis
stage throws (`processVideo`, catch around `analyzeFrames`). -/
structure VisualAnalysis where
  summary : String
  keyMoments : List String
deriving DecidableEq

/-- Result of the audio stage (`extractAudioTranscript`). -/
structure AudioAnalysis where
  transcript : String
  duration : Option ℕ
deriving DecidableEq

/-- The `VideoAnalysis` interface of `types/index.ts`: the sole output
artifact of the pipeline. -/
structure VideoAnalysis where
  visualSummary : String
  audioTranscript : String
  keyMoments : List String
  duration : ℕ
  frameCount : ℕ
  combinedContent : String
  confidence : ℚ
  thumbnail : Option String
deriving DecidableEq

/-- Progress stages of the `ProcessingProgress` interface. -/
inductive Stage where
  | extracting
  | analyzing
  | synthesizing
deriving DecidableEq

/-- The `ProcessingProgress` interface of `types/index.ts`. -/
structure ProcessingProgress where
  stage : Stage
  progress : ℚ
  message : String

/-- Outcome of the ffprobe duration probe as seen by `getVideoDuration`:
exit code 0 with a parse result (`none` models `parseFloat` returning
`NaN`), or a nonzero exit / spawn error. -/
inductive ProbeOutcome where
  | success (parsed : Option Frac)
  | failure

/-- Verbose transcription response of the speech-to-text service
(`response_format: verbose_json`): text plus optionally reported duration
and language. -/
structure WhisperVerbose where
  text : String
  duration : Option Frac
  language : Option String

/-- Behaviour of all external collaborators during one run: filesystem
operations, the ffmpeg/ffprobe subprocess invocations (indexed by frame
number for the frame loop) and the three remote services (vision calls
indexed by batch number).  Error values carry the message of the exception
the corresponding collaborator call would throw. -/
structure Env where
  mkdtemp : Except String Unit
  writeInput : Except String Unit
  probe : ProbeOutcome
  frameCall : ℕ → Except String Unit
  frameFile : ℕ → Option Buf
  visionCall : ℕ → Except String (Option String)
  summaryCall : Except String (Option String)
  audioCall : Except String Unit
  audioRead : Except String Buf
  whisper : Except String WhisperVerbose

/-- External-collaborator calls issued by a run, in order, with the
arguments the claims speak about. -/
inductive Call where
  | probe
  | ffmpegFrame (index : ℕ) (timestamp : ℤ)
  | vision (batchIndex : ℕ) (imageCount : ℕ)
  | summarize (descriptions : List String)
  | ffmpegAudio
  | whisperTranscribe (byteCount : ℕ)
deriving DecidableEq

/-- Result of one pipeline stage: its value or thrown error, the external
calls it issued and the progress events it emitted. -/
structure StageOut (α : Type) where
  res : Except String α
  calls : List Call
  events : List ProcessingProgress

/-- Value of an `Except`, with a fallback for the error case. -/
def getOk {α : Type} (fallback : α) : Except String α → α
  | Except.ok a => a
  | Except.error _ => fallback

/-- The `calculateOptimalFrameCount` method: a duration is estimated from
the byte size alone (`Math.max(10, videoSize / (1024 * 1024) * 10)`), and
the frame target is `Math.min(maxFrames, Math.max(3, Math.ceil(estimated /
frameInterval)))` with `maxFrames = 12` and `frameInterval = 5`. -/
def calculateOptimalFrameCount (videoSize : ℕ) : ℕ :=
  let estimatedDuration : Frac :=
    Frac.max (Frac.ofNat 10) (Frac.mulNat (Frac.divNat (Frac.ofNat videoSize) (1024 * 1024)) 10)
  (Min.min 12 (Max.max 3 (Frac.ceil (Frac.divNat estimatedDuration 5)))).toNat

/-- The `getVideoDuration` method (ffprobe wrapper): the parsed seconds
value on a clean probe, and the fixed fallback of 120 seconds when the
probe exits nonzero, fails to spawn, or its output does not parse as a
number.  The probe call itself is recorded by `extractKeyFrames`. -/
def getVideoDuration (env : Env) : Frac :=
  match env.probe with
  | ProbeOutcome.success (some parsed) => parsed
  | ProbeOutcome.success none => Frac.ofNat 120
  | ProbeOutcome.failure => Frac.ofNat 120

/-- Frame loop of `extractKeyFrames` over the list of remaining frame
indices.  For each index the ffmpeg extraction call is issued with
timestamp `i * frameInterval`; a rejected call propagates as the loop
error, an unreadable output file skips the index, and a readable file is
appended to the frame list (becoming the thumbnail at index 0) with a
progress event. -/
def extractFramesGo (env : Env) (frameInterval : ℤ) (total : ℕ) :
    List ℕ → List Buf → Option Buf → StageOut (List Buf × Option Buf)
  | [], frames, thumbnail => ⟨Except.ok (frames, thumbnail), [], []⟩
  | i :: rest, frames, thumbnail =>
    let timestamp : ℤ := i * frameInterval
    match env.frameCall i with
    | Except.error e => ⟨Except.error e, [Call.ffmpegFrame i timestamp], []⟩
    | Except.ok _ =>
      match env.frameFile i with
      | some frameData =>
        let thumbnail := if i = 0 then some frameData else thumbnail
        let ev : ProcessingProgress :=
          ⟨Stage.extracting, (i : ℚ) / (total : ℚ) * 50,
            "Extracted frame " ++ toString (i + 1) ++ "/" ++ toString total⟩
        let out := extractFramesGo env frameInterval total rest (frames ++ [frameData]) thumbnail
        ⟨out.res, Call.ffmpegFrame i timestamp :: out.calls, ev :: out.events⟩
      | none =>
        let out := extractFramesGo env frameInterval total rest frames thumbnail
        ⟨out.res, Call.ffmpegFrame i timestamp :: out.calls, out.events⟩

/-- The `extractKeyFrames` method: probe the duration, space `frameCount`
timestamps by `Math.max(1, Math.floor(duration / frameCount))`, and run the
frame loop; any error escaping the loop is rethrown as a frame-extraction
failure. -/
def extractKeyFrames (env : Env) (frameCount : ℕ) : StageOut (List Buf × Option Buf) :=
  let duration := getVideoDuration env
  let frameInterval : ℤ := Max.max 1 (Frac.floor (Frac.divNat duration frameCount))
  let out := extractFramesGo env frameInterval frameCount (List.range frameCount) [] none
  ⟨match out.res with
   | Except.ok r => Except.ok r
   | Except.error e => Except.error ("Frame extraction failed: " ++ e),
   Call.probe :: out.calls, out.events⟩

/-- The `analyzeFrameBatch` method: one vision-service call for a batch;
a rejected call rethrows, a successful response (its content, or the empty
string when the choice list is empty) is parsed heuristically. -/
def analyzeFrameBatch (env : Env) (batchIndex : ℕ) :
    Except String (List String × List String) :=
  match env.visionCall batchIndex with
  | Except.error e => Except.error e
  | Except.ok content => Except.ok (parseFrameAnalysis (content.getD ""))

/-- Batch loop of `analyzeFrames`: analyse each batch in order,
accumulating key moments and descriptions; a batch failure aborts the whole
loop (it is not caught per batch). -/
def analyzeBatchesGo (env : Env) (total : ℕ) :
    List (List Buf) → ℕ → List String → List String →
      StageOut (List String × List String)
  | [], _, keyMoments, descriptions => ⟨Except.ok (keyMoments, descriptions), [], []⟩
  | batch :: rest, i, keyMoments, descriptions =>
    match analyzeFrameBatch env i with
    | Except.error e => ⟨Except.error e, [Call.vision i batch.length], []⟩
    | Except.ok parsed =>
      let ev : ProcessingProgress :=
        ⟨Stage.analyzing, 60 + ((i : ℚ) + 1) / (total : ℚ) * 20,
          "Analyzed batch " ++ toString (i + 1) ++ "/" ++ toString total⟩
      let out := analyzeBatchesGo env total rest (i + 1)
        (keyMoments ++ parsed.1) (descriptions ++ parsed.2)
      ⟨out.res, Call.vision i batch.length :: out.calls, ev :: out.events⟩

/-- The `generateVideoSummary` method: one text-generation call over the
joined descriptions; a missing response content falls back to a fixed
completion string, a rejected call is caught and falls back to a fixed
limited-summary string (the summarize call itself is recorded by
`analyzeFrames` together with the description list handed over). -/
def generateVideoSummary (env : Env) : String :=
  match env.summaryCall with
  | Except.ok content => content.getD "Video content analysis completed."
  | Except.error _ => "Video content analysis completed with limited summary."

/-- The `analyzeFrames` method: chunk the frames into batches of 10
(`batchSize = 10`), run the batch loop, then generate the summary from all
accumulated frame descriptions. -/
def analyzeFrames (env : Env) (frames : List Buf) : StageOut VisualAnalysis :=
  let batches := chunkArray frames 10
  let out := analyzeBatchesGo env batches.length batches 0 [] []
  match out.res with
  | Except.error e => ⟨Except.error e, out.calls, out.events⟩
  | Except.ok parsed =>
    ⟨Except.ok ⟨generateVideoSummary env, parsed.1⟩,
     out.calls ++ [Call.summarize parsed.2], out.events⟩

/-- The `estimateAudioDuration` method: `Math.round(audioBufferSize /
bytesPerSecond)` with `bytesPerSecond = 16000 * 2` for 16-bit mono 16 kHz
PCM. -/
def estimateAudioDuration (audioBufferSize : ℕ) : ℕ :=
  (Frac.round (Frac.divNat (Frac.ofNat audioBufferSize) (16000 * 2))).toNat

/-- The `extractAudioTranscript` method: transcode the audio track with one
ffmpeg call, read and delete the transcoded file, transcribe it with the
speech-to-text service, and estimate the duration from the byte length;
every failure is rethrown wrapped as an audio-extraction failure. -/
def extractAudioTranscript (env : Env) : StageOut AudioAnalysis :=
  match env.audioCall with
  | Except.error e => ⟨Except.error ("Audio extraction failed: " ++ e), [Call.ffmpegAudio], []⟩
  | Except.ok _ =>
    match env.audioRead with
    | Except.error e =>
      ⟨Except.error ("Audio extraction failed: " ++ e), [Call.ffmpegAudio], []⟩
    | Except.ok audioBuffer =>
      let ev : ProcessingProgress :=
        ⟨Stage.analyzing, 85, "Transcribing audio with Whisper..."⟩
      match env.whisper with
      | Except.error e =>
        ⟨Except.error ("Audio extraction failed: " ++ ("Whisper transcription failed: " ++ e)),
         [Call.ffmpegAudio, Call.whisperTranscribe audioBuffer.length], [ev]⟩
      | Except.ok response =>
        ⟨Except.ok ⟨response.text, some (estimateAudioDuration audioBuffer.length)⟩,
         [Call.ffmpegAudio, Call.whisperTranscribe audioBuffer.length], [ev]⟩

/-- JavaScript `padStart(2, "0")` applied to the seconds value. -/
def padStartTwo (n : ℕ) : String :=
  if n < 10 then "0" ++ toString n else toString n

/-- Duration formatting of `synthesizeContent`: `M:SS` for a positive
duration, a fixed unknown marker otherwise. -/
def formatTime (duration : ℕ) : String :=
  let minutes := duration / 60
  let seconds := duration % 60
  if duration > 0 then toString minutes ++ ":" ++ padStartTwo seconds else "Unknown"

/-- The numbered key-moment list of the synthesis template. -/
def numberedMoments (keyMoments : List String) : String :=
  String.intercalate "\n" (keyMoments.enum.map (fun p => toString (p.1 + 1) ++ ". " ++ p.2))

/-- The `synthesizeContent` method: the fixed synthesis template, with the
visual summary, the numbered key moments, the audio transcript and the
metadata footer interpolated.  Note the footer interpolates
`visualAnalysis.keyMoments.length` after the label of analysed frames. -/
def synthesizeContent (visualAnalysis : VisualAnalysis) (audioAnalysis : AudioAnalysis) :
    String :=
  let duration := audioAnalysis.duration.getD 0
  "VIDEO CONTENT ANALYSIS\n\nVisual Summary:\n" ++ visualAnalysis.summary ++
    "\n\nKey Visual Moments:\n" ++ numberedMoments visualAnalysis.keyMoments ++
    "\n\nAudio Transcript:\n" ++ audioAnalysis.transcript ++
    "\n\nVideo Metadata:\nDuration: " ++ formatTime duration ++
    " | Frames Analyzed: " ++ toString visualAnalysis.keyMoments.length ++
    "\n\nThis content has been processed using AI-powered video analysis combining real frame extraction with GPT-4o visual analysis and Whisper audio transcription for comprehensive searchability."

/-- The process-wide `videoCache` map, as an association list read through
`List.lookup` (insertion prepends, so lookup sees the latest entry, like
`Map.set`). -/
abbrev Cache := List (String × VideoAnalysis)

/-- The cache key of `processVideo`: filename and byte length. -/
def cacheKey (filename : String) (videoBuffer : Buf) : String :=
  filename ++ "_" ++ toString videoBuffer.length

/-- The visual-analysis fallback installed by `processVideo` when
`analyzeFrames` throws. -/
def visualFallback : VisualAnalysis :=
  ⟨"Frame analysis failed - continuing with audio transcript only",
   ["Visual analysis unavailable due to processing error"]⟩

/-- The audio fallback installed by `processVideo` when
`extractAudioTranscript` throws. -/
def audioFallback : AudioAnalysis :=
  ⟨"Audio transcript extraction failed - continuing with visual analysis only", some 0⟩

/-- Observable outcome of one `processVideo` invocation: the returned
result or thrown error, the cache after the call, the external calls
issued, the progress events emitted, and the number of temporary
workspaces created. -/
structure RunOut where
  res : Except String VideoAnalysis
  cache : Cache
  calls : List Call
  events : List ProcessingProgress
  workspaces : ℕ

/-- The `processVideo` method.  Cache check first (a hit emits one
progress event and returns the cached result); otherwise a workspace is
created, the input written, frames extracted (a failure there, as for the
workspace operations, is fatal and rethrown wrapped), the visual and audio
stages run with their failures caught and replaced by the fixed fallbacks,
the content synthesized, and the result cached and returned. -/
def processVideo (env : Env) (cache : Cache) (videoBuffer : Buf) (filename : String) :
    RunOut :=
  match List.lookup (cacheKey filename videoBuffer) cache with
  | some cached =>
    ⟨Except.ok cached, cache, [], [⟨Stage.synthesizing, 100, "Using cached results"⟩], 0⟩
  | none =>
    let ev0 : ProcessingProgress := ⟨Stage.extracting, 0, "Extracting key frames..."⟩
    match env.mkdtemp with
    | Except.error e => ⟨Except.error ("Failed to process video: " ++ e), cache, [], [ev0], 0⟩
    | Except.ok _ =>
      match env.writeInput with
      | Except.error e =>
        ⟨Except.error ("Failed to process video: " ++ e), cache, [], [ev0], 1⟩
      | Except.ok _ =>
        let ext := extractKeyFrames env (calculateOptimalFrameCount videoBuffer.length)
        match ext.res with
        | Except.error e =>
          ⟨Except.error ("Failed to process video: " ++ e), cache, ext.calls,
           ev0 :: ext.events, 1⟩
        | Except.ok extracted =>
          let frames := extracted.1
          let ev50 : ProcessingProgress :=
            ⟨Stage.extracting, 50, "Extracted " ++ toString frames.length ++ " frames"⟩
          let ev60 : ProcessingProgress := ⟨Stage.analyzing, 60, "Analyzing frames with AI..."⟩
          let va := analyzeFrames env frames
          let visualAnalysis := getOk visualFallback va.res
          let ev80 : ProcessingProgress :=
            ⟨Stage.analyzing, 80, "Extracting audio transcript..."⟩
          let aa := extractAudioTranscript env
          let audioAnalysis := getOk audioFallback aa.res
          let ev90 : ProcessingProgress := ⟨Stage.synthesizing, 90, "Synthesizing content..."⟩
          let combinedContent := synthesizeContent visualAnalysis audioAnalysis
          let ev100 : ProcessingProgress :=
            ⟨Stage.synthesizing, 100, "Video processing completed!"⟩
          let result : VideoAnalysis :=
            ⟨visualAnalysis.summary, audioAnalysis.transcript, visualAnalysis.keyMoments,
             audioAnalysis.duration.getD 0, frames.length, combinedContent, 9 / 10,
             extracted.2.map base64Encode⟩
          ⟨Except.ok result, (cacheKey filename videoBuffer, result) :: cache,
           ext.calls ++ va.calls ++ aa.calls,
           ev0 :: ext.events ++ [ev50, ev60] ++ va.events ++ [ev80] ++ aa.events ++ [ev90, ev100],
           1⟩

/-- Thumbnail state after the frame loop has processed `indices`, starting
from `thumbnail`: a readable frame file at index 0 becomes the thumbnail,
every other index leaves it unchanged (mirrors the loop update of
`extractKeyFrames`). -/
def thumbAfter (env : Env) (thumbnail : Option Buf) (indices : List ℕ) : Option Buf :=
  indices.foldl
    (fun th i =>
      match env.frameFile i with
      | some frameData => if i = 0 then some frameData else th
      | none => th)
    thumbnail

/-- Timestamps of the frame-extraction calls in a call trace, in order. -/
def timestampsOf (calls : List Call) : List ℤ :=
  calls.filterMap fun c =>
    match c with
    | Call.ffmpegFrame _ timestamp => some timestamp
    | _ => none

/-- Response text the vision service produced for a batch (the empty
string when the call failed or the choice list was empty), as consumed by
`analyzeFrameBatch`. -/
def visionContent (env : Env) (batchIndex : ℕ) : String :=
  match env.visionCall batchIndex with
  | Except.ok content => content.getD ""
  | Except.error _ => ""

/-- Concatenation, in batch order, of the per-batch key-moment lists
parsed from the vision responses of the indexed batches. -/
def kmFrom (env : Env) (l : List (ℕ × List Buf)) : List String :=
  (l.map fun p => (parseFrameAnalysis (visionContent env p.1)).1).flatten

/-- Concatenation, in batch order, of the per-batch description lists
parsed from the vision responses of the indexed batches. -/
def dsFrom (env : Env) (l : List (ℕ × List Buf)) : List String :=
  (l.map fun p => (parseFrameAnalysis (visionContent env p.1)).2).flatten

/-- Structural markers of the synthesis template: header, visual-summary
section, audio-transcript section and metadata footer. -/
def ContainsMarkers (s : String) : Prop :=
  strContains s "VIDEO CONTENT ANALYSIS" = true ∧
  strContains s "Visual Summary:" = true ∧
  strContains s "Audio Transcript:" = true ∧
  strContains s "Video Metadata:" = true

/-- Cache states reachable by the program: every entry was produced by a
completed run, so its combined content carries the synthesis template. -/
def GoodCache (cache : Cache) : Prop :=
  ∀ k r, List.lookup k cache = some r →
    r.combinedContent ≠ "" ∧ ContainsMarkers r.combinedContent

/-- Fallback value used to project a known-successful result out of an
`Except` in concrete witnesses. -/
def emptyAnalysis : VideoAnalysis := ⟨"", "", [], 0, 0, "", 0, none⟩

/-- Environment in which the ffmpeg frame-extraction call for the first
timestamp is rejected (nonzero exit code) and every remote service is
down. -/
def envDecoderFail : Env :=
  { mkdtemp := Except.ok ()
    writeInput := Except.ok ()
    probe := ProbeOutcome.failure
    frameCall := fun i => if i = 0 then Except.error "FFmpeg failed with code 1: boom" else Except.ok ()
    frameFile := fun _ => some [1]
    visionCall := fun _ => Except.error "api down"
    summaryCall := Except.error "api down"
    audioCall := Except.error "no audio stream"
    audioRead := Except.error "read failed"
    whisper := Except.error "api down" }

/-- Environment in which every ffmpeg call succeeds but only the frame
file of the second timestamp (index 1) is readable; the remote services
are down. -/
def envSkipFrame : Env :=
  { mkdtemp := Except.ok ()
    writeInput := Except.ok ()
    probe := ProbeOutcome.failure
    frameCall := fun _ => Except.ok ()
    frameFile := fun i => if i = 1 then some [7] else none
    visionCall := fun _ => Except.error "api down"
    summaryCall := Except.error "api down"
    audioCall := Except.error "no audio stream"
    audioRead := Except.error "read failed"
    whisper := Except.error "api down" }

/-- Environment yielding one readable frame (index 0) and a vision
response with two key-moment lines; the audio path is down. -/
def envKeyMoments : Env :=
  { mkdtemp := Except.ok ()
    writeInput := Except.ok ()
    probe := ProbeOutcome.failure
    frameCall := fun _ => Except.ok ()
    frameFile := fun i => if i = 0 then some [1] else none
    visionCall := fun _ => Except.ok (some "Key moment: alpha\nKey moment: beta")
    summaryCall := Except.ok (some "A concise summary")
    audioCall := Except.error "no audio stream"
    audioRead := Except.error "read failed"
    whisper := Except.error "api down" }

/-- Environment whose duration probe parses to 2 seconds while every
ffmpeg frame call succeeds. -/
def envProbeTwo : Env :=
  { mkdtemp := Except.ok ()
    writeInput := Except.ok ()
    probe := ProbeOutcome.success (some ⟨2, 1⟩)
    frameCall := fun _ => Except.ok ()
    frameFile := fun _ => none
    visionCall := fun _ => Except.error "api down"
    summaryCall := Except.error "api down"
    audioCall := Except.error "no audio stream"
    audioRead := Except.error "read failed"
    whisper := Except.error "api down" }

/-- Environment in which one frame is extracted but the vision service and
the whole audio path fail: both analysis stages degrade to their
fallbacks, yet the run completes. -/
def envAllDegraded : Env :=
  { mkdtemp := Except.ok ()
    writeInput := Except.ok ()
    probe := ProbeOutcome.failure
    frameCall := fun _ => Except.ok ()
    frameFile := fun i => if i = 0 then some [1] else none
    visionCall := fun _ => Except.error "api down"
    summaryCall := Except.error "api down"
    audioCall := Except.error "no audio stream"
    audioRead := Except.error "read failed"
    whisper := Except.error "api down" }

/-- Environment in which the first timestamp produces a readable frame
file (byte 3); the remote services are down. -/
def envThumbOk : Env :=
  { mkdtemp := Except.ok ()
    writeInput := Except.ok ()
    probe := ProbeOutcome.failure
    frameCall := fun _ => Except.ok ()
    frameFile := fun i => if i = 0 then some [3] else none
    visionCall := fun _ => Except.error "api down"
    summaryCall := Except.error "api down"
    audioCall := Except.error "no audio stream"
    audioRead := Except.error "read failed"
    whisper := Except.error "api down" }

/-- Environment in which the audio path succeeds end to end and the
speech-to-text service reports a duration of 50 seconds for a 5-byte
transcoded audio buffer. -/
def envAudioReported : Env :=
  { mkdtemp := Except.ok ()
    writeInput := Except.ok ()
    probe := ProbeOutcome.failure
    frameCall := fun _ => Except.ok ()
    frameFile := fun _ => none
    visionCall := fun _ => Except.error "api down"
    summaryCall := Except.error "api down"
    audioCall := Except.ok ()
    audioRead := Except.ok [1, 2, 3, 4, 5]
    whisper := Except.ok ⟨"hello world", some (Frac.ofNat 50), some "en"⟩ }

/-- Result of the completed doubly-degraded run in `envAllDegraded`. -/
def resAllDegraded : VideoAnalysis :=
  getOk emptyAnalysis (processVideo envAllDegraded [] [] "clip.mp4").res

/-- Result of the completed run in `envSkipFrame` (one frame extracted, at
the second timestamp). -/
def resSkipFrame : VideoAnalysis :=
  getOk emptyAnalysis (processVideo envSkipFrame [] [] "clip.mp4").res

/-- Result of the completed run in `envKeyMoments` (one frame extracted,
two key moments parsed). -/
def resKeyMoments : VideoAnalysis :=
  getOk emptyAnalysis (processVideo envKeyMoments [] [] "clip.mp4").res

/-- Twelve one-byte frames, which chunk into two vision batches. -/
def twelveFrames : List Buf := List.replicate 12 [1]

/-- Byte length of the transcoded audio the pipeline read (0 when the read
failed, in which case the audio stage has already thrown). -/
def audioByteLength (env : Env) : ℕ :=
  match env.audioRead with
  | Except.ok audioBuffer => audioBuffer.length
  | Except.error _ => 0

/-! ### Correctness of the fraction arithmetic -/

theorem Frac.toRat_ofNat (n : ℕ) : (Frac.ofNat n).toRat = n := by
  simp [Frac.ofNat, Frac.toRat]

theorem Frac.toRat_divNat (f : Frac) (n : ℕ) :
    (f.divNat n).toRat = f.toRat / n := by
  simp only [Frac.divNat, Frac.toRat]
  push_cast
  rw [div_div]

theorem Frac.toRat_mulNat (f : Frac) (n : ℕ) :
    (f.mulNat n).toRat = f.toRat * n := by
  simp only [Frac.mulNat, Frac.toRat]
  push_cast
  rw [mul_div_right_comm]

theorem Frac.toRat_max (a b : Frac) (ha : 0 < a.den) (hb : 0 < b.den) :
    (Frac.max a b).toRat = Max.max a.toRat b.toRat := by
  have ha' : (0 : ℚ) < (a.den : ℚ) := by exact_mod_cast ha
  have hb' : (0 : ℚ) < (b.den : ℚ) := by exact_mod_cast hb
  have hiff : a.toRat ≤ b.toRat ↔ a.num * (b.den : ℤ) ≤ b.num * (a.den : ℤ) := by
    rw [Frac.toRat, Frac.toRat, div_le_div_iff₀ ha' hb']
    exact_mod_cast Iff.rfl
  rw [Frac.max]
  split
  · rw [max_eq_right (hiff.mpr (by assumption))]
  · rw [max_eq_left (le_of_not_le (fun hle => (by assumption : ¬ _) (hiff.mp hle)))]

theorem Frac.floor_toRat (f : Frac) : f.floor = ⌊f.toRat⌋ := by
  rw [Frac.floor, Frac.toRat, Rat.floor_intCast_div_natCast,
    Int.fdiv_eq_ediv _ (Int.ofNat_nonneg f.den)]

theorem Frac.ceil_toRat (f : Frac) : f.ceil = ⌈f.toRat⌉ := by
  have hneg : (Frac.mk (-f.num) f.den).toRat = -f.toRat := by
    simp [Frac.toRat, neg_div]
  have h := Frac.floor_toRat ⟨-f.num, f.den⟩
  rw [hneg, Int.floor_neg] at h
  rw [Frac.ceil]
  have : Int.fdiv (-f.num) f.den = Frac.floor ⟨-f.num, f.den⟩ := rfl
  rw [this, h, neg_neg]

theorem Frac.round_toRat (f : Frac) (h : 0 < f.den) :
    f.round = ⌊f.toRat + 1 / 2⌋ := by
  have h2 : (Frac.mk (2 * f.num + f.den) (2 * f.den)).toRat = f.toRat + 1 / 2 := by
    have hden : ((f.den : ℚ)) ≠ 0 := by positivity
    simp only [Frac.toRat]
    push_cast
    field_simp
    ring
  have hf := Frac.floor_toRat ⟨2 * f.num + f.den, 2 * f.den⟩
  rw [h2] at hf
  exact hf

/-! ### Substring infrastructure -/

theorem data_append (a b : String) : (a ++ b).data = a.data ++ b.data := rfl

theorem prefixOf_extend (p : List Char) :
    ∀ (l t : List Char), p.isPrefixOf l = true → p.isPrefixOf (l ++ t) = true := by
  induction p with
  | nil => intro l t _; cases l <;> simp [List.isPrefixOf]
  | cons c cs ih =>
    intro l t h
    cases l with
    | nil => simp [List.isPrefixOf] at h
    | cons d ds =>
      simp only [List.cons_append, List.isPrefixOf, Bool.and_eq_true] at h ⊢
      exact ⟨h.1, ih ds t h.2⟩

theorem subAt_append_left (pat : List Char) :
    ∀ (h1 h2 : List Char), subAt pat h1 = true → subAt pat (h1 ++ h2) = true := by
  intro h1
  induction h1 with
  | nil =>
    intro h2 h
    cases pat with
    | nil =>
      induction h2 with
      | nil => simp [subAt, List.isPrefixOf]
      | cons c cs ih => simp [subAt, List.isPrefixOf]
    | cons c cs => simp [subAt, List.isPrefixOf] at h
  | cons c cs ih =>
    intro h2 h
    simp only [subAt, Bool.or_eq_true] at h
    rcases h with h | h
    · simp only [List.cons_append, subAt, Bool.or_eq_true]
      exact Or.inl (prefixOf_extend pat _ _ h)
    · simp only [List.cons_append, subAt, Bool.or_eq_true]
      exact Or.inr (ih h2 h)

theorem subAt_append_right (pat : List Char) :
    ∀ (h1 h2 : List Char), subAt pat h2 = true → subAt pat (h1 ++ h2) = true := by
  intro h1
  induction h1 with
  | nil => intro h2 h; simpa using h
  | cons c cs ih =>
    intro h2 h
    simp only [List.cons_append, subAt, Bool.or_eq_true]
    exact Or.inr (ih h2 h)

theorem strContains_append_left (a b pat : String) (h : strContains a pat = true) :
    strContains (a ++ b) pat = true := by
  rw [strContains, data_append]
  exact subAt_append_left pat.data a.data b.data h

theorem strContains_append_right (a b pat : String) (h : strContains b pat = true) :
    strContains (a ++ b) pat = true := by
  rw [strContains, data_append]
  exact subAt_append_right pat.data a.data b.data h

/-! ### The synthesis template always carries its structural markers -/

theorem synthesizeContent_markers (v : VisualAnalysis) (a : AudioAnalysis) :
    synthesizeContent v a ≠ "" ∧ ContainsMarkers (synthesizeContent v a) := by
  have hm : ContainsMarkers (synthesizeContent v a) := by
    unfold synthesizeContent ContainsMarkers
    refine ⟨?_, ?_, ?_, ?_⟩
    · apply strContains_append_left
      apply strContains_append_left
      apply strContains_append_left
      apply strContains_append_left
      apply strContains_append_left
      apply strContains_append_left
      apply strContains_append_left
      apply strContains_append_left
      apply strContains_append_left
      apply strContains_append_left
      decide
    · apply strContains_append_left
      apply strContains_append_left
      apply strContains_append_left
      apply strContains_append_left
      apply strContains_append_left
      apply strContains_append_left
      apply strContains_append_left
      apply strContains_append_left
      apply strContains_append_left
      apply strContains_append_left
      decide
    · apply strContains_append_left
      apply strContains_append_left
      apply strContains_append_left
      apply strContains_append_left
      apply strContains_append_left
      apply strContains_append_left
      apply strContains_append_right
      decide
    · apply strContains_append_left
      apply strContains_append_left
      apply strContains_append_left
      apply strContains_append_left
      apply strContains_append_right
      decide
  refine ⟨?_, hm⟩
  intro heq
  have h1 := hm.1
  rw [heq] at h1
  exact absurd h1 (by decide)

/-! ### Frame-extraction loop -/

theorem extractFramesGo_res_ok (env : Env) (frameInterval : ℤ) (total : ℕ) :
    ∀ (idxs : List ℕ) (frames : List Buf) (thumbnail : Option Buf),
      (∀ i ∈ idxs, env.frameCall i = Except.ok ()) →
      (extractFramesGo env frameInterval total idxs frames thumbnail).res =
        Except.ok (frames ++ idxs.filterMap env.frameFile, thumbAfter env thumbnail idxs) := by
  intro idxs
  induction idxs with
  | nil => intro frames thumbnail _; simp [extractFramesGo, thumbAfter]
  | cons i rest ih =>
    intro frames thumbnail hcalls
    have hi : env.frameCall i = Except.ok () := hcalls i (List.mem_cons_self i rest)
    have hrest : ∀ j ∈ rest, env.frameCall j = Except.ok () :=
      fun j hj => hcalls j (List.mem_cons_of_mem i hj)
    simp only [extractFramesGo, hi]
    cases hfile : env.frameFile i with
    | some frameData =>
      simp only [List.filterMap_cons, hfile, thumbAfter, List.foldl_cons]
      rw [ih (frames ++ [frameData]) (if i = 0 then some frameData else thumbnail) hrest]
      simp [thumbAfter, hfile, List.append_assoc]
    | none =>
      simp only [List.filterMap_cons, hfile, thumbAfter, List.foldl_cons]
      rw [ih frames thumbnail hrest]
      simp [thumbAfter, hfile]

theorem extractFramesGo_calls_ok (env : Env) (frameInterval : ℤ) (total : ℕ) :
    ∀ (idxs : List ℕ) (frames : List Buf) (thumbnail : Option Buf),
      (∀ i ∈ idxs, env.frameCall i = Except.ok ()) →
      (extractFramesGo env frameInterval total idxs frames thumbnail).calls =
        idxs.map (fun i => Call.ffmpegFrame i (i * frameInterval)) := by
  intro idxs
  induction idxs with
  | nil => intro frames thumbnail _; simp [extractFramesGo]
  | cons i rest ih =>
    intro frames thumbnail hcalls
    have hi : env.frameCall i = Except.ok () := hcalls i (List.mem_cons_self i rest)
    have hrest : ∀ j ∈ rest, env.frameCall j = Except.ok () :=
      fun j hj => hcalls j (List.mem_cons_of_mem i hj)
    simp only [extractFramesGo, hi]
    cases hfile : env.frameFile i with
    | some frameData =>
      simp only [List.map_cons]
      rw [← ih (frames ++ [frameData]) (if i = 0 then some frameData else thumbnail) hrest]
    | none =>
      simp only [List.map_cons]
      rw [← ih frames thumbnail hrest]

theorem thumbAfter_of_no_zero (env : Env) :
    ∀ (idxs : List ℕ) (th : Option Buf), (∀ i ∈ idxs, i ≠ 0) →
      thumbAfter env th idxs = th := by
  intro idxs
  induction idxs with
  | nil => intro th _; rfl
  | cons i rest ih =>
    intro th hne
    have hi : i ≠ 0 := hne i (List.mem_cons_self i rest)
    have hrest : ∀ j ∈ rest, j ≠ 0 := fun j hj => hne j (List.mem_cons_of_mem i hj)
    simp only [thumbAfter, List.foldl_cons]
    cases hfile : env.frameFile i with
    | some frameData => simp only [hi, if_false]; exact ih th hrest
    | none => exact ih th hrest

theorem thumbAfter_range (env : Env) (n : ℕ) (hn : 0 < n) :
    thumbAfter env none (List.range n) = env.frameFile 0 := by
  obtain ⟨m, rfl⟩ : ∃ m, n = m + 1 := ⟨n - 1, by omega⟩
  rw [List.range_succ_eq_map]
  simp only [thumbAfter, List.foldl_cons]
  cases hfile : env.frameFile 0 with
  | some frameData =>
    simp only [if_pos rfl]
    have := thumbAfter_of_no_zero env ((List.range m).map Nat.succ) (some frameData)
      (by intro i hi; simp only [List.mem_map] at hi; obtain ⟨j, _, rfl⟩ := hi; exact Nat.succ_ne_zero j)
    exact this
  | none =>
    have := thumbAfter_of_no_zero env ((List.range m).map Nat.succ) none
      (by intro i hi; simp only [List.mem_map] at hi; obtain ⟨j, _, rfl⟩ := hi; exact Nat.succ_ne_zero j)
    exact this

theorem extractKeyFrames_res_of_calls_ok (env : Env) (n : ℕ)
    (hcalls : ∀ i, i < n → env.frameCall i = Except.ok ()) :
    (extractKeyFrames env n).res =
      Except.ok ((List.range n).filterMap env.frameFile, thumbAfter env none (List.range n)) := by
  simp only [extractKeyFrames]
  rw [extractFramesGo_res_ok env _ n (List.range n) [] none
    (fun i hi => hcalls i (List.mem_range.mp hi))]
  simp only [List.nil_append]

theorem extractKeyFrames_calls_of_calls_ok (env : Env) (n : ℕ)
    (hcalls : ∀ i, i < n → env.frameCall i = Except.ok ()) :
    (extractKeyFrames env n).calls =
      Call.probe :: (List.range n).map
        (fun i => Call.ffmpegFrame i
          (i * Max.max 1 (Frac.floor (Frac.divNat (getVideoDuration env) n)))) := by
  simp only [extractKeyFrames]
  rw [extractFramesGo_calls_ok env _ n (List.range n) [] none
    (fun i hi => hcalls i (List.mem_range.mp hi))]

/-! ### Case analysis of processVideo -/

theorem processVideo_cache_hit (env : Env) (cache : Cache) (videoBuffer : Buf)
    (filename : String) (r : VideoAnalysis)
    (h : List.lookup (cacheKey filename videoBuffer) cache = some r) :
    processVideo env cache videoBuffer filename =
      ⟨Except.ok r, cache, [], [⟨Stage.synthesizing, 100, "Using cached results"⟩], 0⟩ := by
  unfold processVideo
  rw [h]

theorem processVideo_ok_cases (env : Env) (cache : Cache) (videoBuffer : Buf)
    (filename : String) (r : VideoAnalysis)
    (hok : (processVideo env cache videoBuffer filename).res = Except.ok r) :
    (List.lookup (cacheKey filename videoBuffer) cache = some r ∧
      (processVideo env cache videoBuffer filename).cache = cache) ∨
    ((processVideo env cache videoBuffer filename).cache =
        (cacheKey filename videoBuffer, r) :: cache ∧
      ∃ v a, r.combinedContent = synthesizeContent v a) := by
  rcases hl : List.lookup (cacheKey filename videoBuffer) cache with _ | cached
  · rcases hmk : env.mkdtemp with e | u
    · simp only [processVideo, hl, hmk] at hok
      exact Except.noConfusion hok
    · rcases hwr : env.writeInput with e | u2
      · simp only [processVideo, hl, hmk, hwr] at hok
        exact Except.noConfusion hok
      · rcases hext : (extractKeyFrames env (calculateOptimalFrameCount videoBuffer.length)).res
          with e | pr
        · simp only [processVideo, hl, hmk, hwr, hext] at hok
          exact Except.noConfusion hok
        · simp only [processVideo, hl, hmk, hwr, hext] at hok ⊢
          injection hok with h
          subst h
          right
          exact ⟨rfl, getOk visualFallback (analyzeFrames env pr.1).res,
            getOk audioFallback (extractAudioTranscript env).res, rfl⟩
  · rw [processVideo_cache_hit env cache videoBuffer filename cached hl] at hok
    replace hok : Except.ok cached = Except.ok r := hok
    injection hok with h
    subst h
    left
    refine ⟨rfl, ?_⟩
    rw [processVideo_cache_hit env cache videoBuffer filename cached hl]

theorem processVideo_error_cache (env : Env) (cache : Cache) (videoBuffer : Buf)
    (filename : String) (e : String)
    (herr : (processVideo env cache videoBuffer filename).res = Except.error e) :
    (processVideo env cache videoBuffer filename).cache = cache := by
  rcases hl : List.lookup (cacheKey filename videoBuffer) cache with _ | cached
  · rcases hmk : env.mkdtemp with e2 | u
    · simp only [processVideo, hl, hmk]
    · rcases hwr : env.writeInput with e2 | u2
      · simp only [processVideo, hl, hmk, hwr]
      · rcases hext : (extractKeyFrames env (calculateOptimalFrameCount videoBuffer.length)).res
          with e2 | pr
        · simp only [processVideo, hl, hmk, hwr, hext]
        · simp only [processVideo, hl, hmk, hwr, hext] at herr
          exact Except.noConfusion herr
  · rw [processVideo_cache_hit env cache videoBuffer filename cached hl] at herr
    replace herr : Except.ok cached = Except.error e := herr
    exact Except.noConfusion herr

theorem processVideo_lookup_of_ok (env : Env) (cache : Cache) (videoBuffer : Buf)
    (filename : String) (r : VideoAnalysis)
    (hok : (processVideo env cache videoBuffer filename).res = Except.ok r) :
    List.lookup (cacheKey filename videoBuffer)
      (processVideo env cache videoBuffer filename).cache = some r := by
  rcases processVideo_ok_cases env cache videoBuffer filename r hok with ⟨hl, hc⟩ | ⟨hc, _⟩
  · rw [hc, hl]
  · rw [hc]
    exact List.lookup_cons_self

theorem processVideo_miss_ok (env : Env) (cache : Cache) (videoBuffer : Buf)
    (filename : String)
    (hmiss : List.lookup (cacheKey filename videoBuffer) cache = none)
    (hmk : env.mkdtemp = Except.ok ()) (hwrite : env.writeInput = Except.ok ())
    (frames : List Buf) (thumb : Option Buf)
    (hext : (extractKeyFrames env (calculateOptimalFrameCount videoBuffer.length)).res =
      Except.ok (frames, thumb)) :
    (processVideo env cache videoBuffer filename).res = Except.ok
      ⟨(getOk visualFallback (analyzeFrames env frames).res).summary,
       (getOk audioFallback (extractAudioTranscript env).res).transcript,
       (getOk visualFallback (analyzeFrames env frames).res).keyMoments,
       ((getOk audioFallback (extractAudioTranscript env).res).duration).getD 0,
       frames.length,
       synthesizeContent (getOk visualFallback (analyzeFrames env frames).res)
         (getOk audioFallback (extractAudioTranscript env).res),
       9 / 10,
       thumb.map base64Encode⟩ := by
  simp only [processVideo, hmiss, hmk, hwrite, hext]

/-! ### Vision batch loop and chunking -/

theorem analyzeFrameBatch_ok (env : Env) (i : ℕ) (parsed : List String × List String)
    (h : analyzeFrameBatch env i = Except.ok parsed) :
    parsed = parseFrameAnalysis (visionContent env i) := by
  unfold analyzeFrameBatch at h
  unfold visionContent
  cases hvc : env.visionCall i with
  | error e => rw [hvc] at h; exact Except.noConfusion h
  | ok content => rw [hvc] at h; injection h with h2; rw [← h2]

theorem analyzeBatchesGo_ok (env : Env) (total : ℕ) :
    ∀ (bs : List (List Buf)) (i : ℕ) (km ds : List String) (out : List String × List String),
      (analyzeBatchesGo env total bs i km ds).res = Except.ok out →
      out = (km ++ kmFrom env (List.enumFrom i bs), ds ++ dsFrom env (List.enumFrom i bs)) ∧
      (analyzeBatchesGo env total bs i km ds).calls =
        (List.enumFrom i bs).map (fun p => Call.vision p.1 p.2.length) := by
  intro bs
  induction bs with
  | nil =>
    intro i km ds out h
    simp only [analyzeBatchesGo] at h ⊢
    injection h with h2
    subst h2
    simp [kmFrom, dsFrom]
  | cons b rest ih =>
    intro i km ds out h
    simp only [analyzeBatchesGo] at h ⊢
    rcases hb : analyzeFrameBatch env i with e | parsed
    · rw [hb] at h
      simp only at h
      exact Except.noConfusion h
    · rw [hb] at h
      simp only at h
      simp only [hb]
      obtain ⟨hout, hcalls⟩ := ih (i + 1) (km ++ parsed.1) (ds ++ parsed.2) out h
      have hp := analyzeFrameBatch_ok env i parsed hb
      constructor
      · rw [hout, hp]
        simp [kmFrom, dsFrom, List.enumFrom_cons, List.append_assoc]
      · rw [hcalls]
        simp [List.enumFrom_cons]

theorem analyzeFrames_ok_shape (env : Env) (frames : List Buf) (v : VisualAnalysis)
    (hok : (analyzeFrames env frames).res = Except.ok v) :
    (analyzeFrames env frames).calls =
      ((chunkArray frames 10).enum.map fun p => Call.vision p.1 p.2.length) ++
        [Call.summarize (dsFrom env (chunkArray frames 10).enum)] ∧
    v = ⟨generateVideoSummary env, kmFrom env (chunkArray frames 10).enum⟩ := by
  simp only [analyzeFrames] at hok ⊢
  rcases hgo : (analyzeBatchesGo env (chunkArray frames 10).length (chunkArray frames 10) 0 [] []).res
      with e | out
  · rw [hgo] at hok
    simp only at hok
    exact Except.noConfusion hok
  · rw [hgo] at hok
    simp only at hok
    simp only [hgo]
    obtain ⟨hout, hcalls⟩ :=
      analyzeBatchesGo_ok env (chunkArray frames 10).length (chunkArray frames 10) 0 [] [] out hgo
    injection hok with h2
    subst h2
    constructor
    · rw [hcalls, hout]
      simp [List.enum]
    · rw [hout]
      simp [List.enum]

theorem chunkGo_length_ten {α : Type} :
    ∀ (fuel : ℕ) (l : List α), l.length ≤ fuel →
      (chunkGo fuel l 10).length = (l.length + 9) / 10 := by
  intro fuel
  induction fuel with
  | zero =>
    intro l hl
    have : l = [] := List.eq_nil_of_length_eq_zero (Nat.le_zero.mp hl)
    subst this
    simp [chunkGo]
  | succ fuel ih =>
    intro l hl
    cases l with
    | nil => simp [chunkGo]
    | cons x xs =>
      simp only [chunkGo, List.length_cons]
      rw [ih ((x :: xs).drop 10) (by simp [List.length_drop] at hl ⊢; omega)]
      simp only [List.length_drop, List.length_cons]
      omega

theorem chunkGo_chunk_le_ten {α : Type} :
    ∀ (fuel : ℕ) (l : List α) (c : List α), c ∈ chunkGo fuel l 10 → c.length ≤ 10 := by
  intro fuel
  induction fuel with
  | zero => intro l c hc; simp [chunkGo] at hc
  | succ fuel ih =>
    intro l c hc
    cases l with
    | nil => simp [chunkGo] at hc
    | cons x xs =>
      simp only [chunkGo, List.mem_cons] at hc
      rcases hc with rfl | hc
      · simp [List.length_take]
      · exact ih ((x :: xs).drop 10) c hc

theorem chunkArray_length_ten {α : Type} (l : List α) :
    (chunkArray l 10).length = (l.length + 9) / 10 :=
  chunkGo_length_ten l.length l le_rfl

theorem chunkArray_chunk_le_ten {α : Type} (l : List α) (c : List α)
    (hc : c ∈ chunkArray l 10) : c.length ≤ 10 :=
  chunkGo_chunk_le_ten l.length l c hc

/-! ### Frame-count heuristic bounds -/

theorem calculateOptimalFrameCount_bounds (n : ℕ) :
    3 ≤ calculateOptimalFrameCount n ∧ calculateOptimalFrameCount n ≤ 12 := by
  unfold calculateOptimalFrameCount
  set x : ℤ := Frac.ceil (Frac.divNat
    (Frac.max (Frac.ofNat 10) (Frac.mulNat (Frac.divNat (Frac.ofNat n) (1024 * 1024)) 10)) 5)
    with hx
  have h3 : (3 : ℤ) ≤ Min.min 12 (Max.max 3 x) := le_min (by norm_num) (le_max_left 3 x)
  have h0 : (0 : ℤ) ≤ Min.min 12 (Max.max 3 x) := le_trans (by norm_num) h3
  constructor
  · exact (Int.le_toNat h0).mpr h3
  · exact Int.toNat_le.mpr (min_le_left _ _)

/-! ### Claim C1 -/

/-- Claim C1: every run of `processVideo` that returns a result — from any
program-reachable cache state, including runs in which both the
visual-analysis stage and the audio stage were substituted with their fixed
fallback values — returns a non-empty `combinedContent` containing the
structural markers of the synthesis template: the header, the visual-summary
section, the audio-transcript section, and the metadata footer. -/
theorem claim1_combinedContent_nonempty_markers
    (env : Env) (cache : Cache) (videoBuffer : Buf) (filename : String)
    (hcache : GoodCache cache) (r : VideoAnalysis)
    (hok : (processVideo env cache videoBuffer filename).res = Except.ok r) :
    r.combinedContent ≠ "" ∧ ContainsMarkers r.combinedContent := by
  rcases processVideo_ok_cases env cache videoBuffer filename r hok with ⟨hl, _⟩ | ⟨_, v, a, hc⟩
  · exact hcache _ r hl
  · rw [hc]
    exact synthesizeContent_markers v a

/-- Witness for C1 at the doubly-degraded concrete run: the empty cache
is program-reachable and the returned content is non-empty with all
markers. -/
theorem claim1_combinedContent_nonempty_markers_witness :
    GoodCache ([] : Cache) ∧
    resAllDegraded.combinedContent ≠ "" ∧ ContainsMarkers resAllDegraded.combinedContent := by
  have hgood : GoodCache ([] : Cache) := by
    intro k r h
    simp [List.lookup] at h
  exact ⟨hgood,
    claim1_combinedContent_nonempty_markers envAllDegraded [] [] "clip.mp4" hgood
      resAllDegraded rfl⟩

/-! ### Claim C2 -/

/-- Counterexample to C2 as stated: a failing decoder call for a single
timestamp (index 0; the calls for indices 1 and 2 would succeed) does not
merely skip that timestamp — the whole run aborts with a fatal error
surfaced to the caller. -/
theorem claim2_counterexample :
    envDecoderFail.frameCall 0 = Except.error "FFmpeg failed with code 1: boom" ∧
    envDecoderFail.frameCall 1 = Except.ok () ∧
    envDecoderFail.frameCall 2 = Except.ok () ∧
    (processVideo envDecoderFail [] [] "clip.mp4").res =
      Except.error
        "Failed to process video: Frame extraction failed: FFmpeg failed with code 1: boom" :=
  ⟨rfl, rfl, rfl, rfl⟩

/-- Claim C2 (amended): only the second failure mode named by the claim is
skipped — when every decoder call returns cleanly, a timestamp whose
extraction produced no readable file is dropped, the stage continues with
the remaining timestamps, no error is surfaced, and the resulting frames
are exactly the readable files in timestamp order, so the final count is
at most the target count.  (A failing decoder call instead aborts the
stage, per `claim2_counterexample`.) -/
theorem claim2_amended_skip_unreadable (env : Env) (n : ℕ)
    (hcalls : ∀ i, i < n → env.frameCall i = Except.ok ()) :
    (extractKeyFrames env n).res =
      Except.ok ((List.range n).filterMap env.frameFile, thumbAfter env none (List.range n)) ∧
    ((List.range n).filterMap env.frameFile).length ≤ n := by
  refine ⟨extractKeyFrames_res_of_calls_ok env n hcalls, ?_⟩
  calc ((List.range n).filterMap env.frameFile).length
      ≤ (List.range n).length := List.length_filterMap_le _ _
    _ = n := List.length_range n

/-- Witness for C2 at a concrete environment: of three timestamps only
index 1 yields a readable file; the stage succeeds with that single frame
and no thumbnail. -/
theorem claim2_amended_skip_unreadable_witness :
    (extractKeyFrames envSkipFrame 3).res = Except.ok ([[7]], none) ∧
    ((List.range 3).filterMap envSkipFrame.frameFile).length ≤ 3 :=
  claim2_amended_skip_unreadable envSkipFrame 3 (fun _ _ => rfl)

/-! ### Claim C5 -/

/-- Counterexample to C5 as stated: in `envSkipFrame` the completed run
extracted one frame (`frameCount = 1`), yet the thumbnail is absent,
because the thumbnail is only taken from the frame at index 0 and that
extraction produced no readable file. -/
theorem claim5_counterexample :
    (processVideo envSkipFrame [] [] "clip.mp4").res = Except.ok resSkipFrame ∧
    resSkipFrame.frameCount = 1 ∧ resSkipFrame.thumbnail = none :=
  ⟨rfl, rfl, rfl⟩

/-- Claim C5 (amended): the thumbnail in the result is the (base64-encoded)
bytes of the frame extracted at the first timestamp when that extraction
produced a readable file, and is absent exactly when the first-timestamp
extraction produced no readable file — even if later frames succeeded. -/
theorem claim5_amended_thumbnail (env : Env) (cache : Cache) (videoBuffer : Buf)
    (filename : String) (r : VideoAnalysis)
    (hmiss : List.lookup (cacheKey filename videoBuffer) cache = none)
    (hmk : env.mkdtemp = Except.ok ()) (hwrite : env.writeInput = Except.ok ())
    (hcalls : ∀ i, i < calculateOptimalFrameCount videoBuffer.length →
      env.frameCall i = Except.ok ())
    (hok : (processVideo env cache videoBuffer filename).res = Except.ok r) :
    r.thumbnail = (env.frameFile 0).map base64Encode := by
  have hext := extractKeyFrames_res_of_calls_ok env
    (calculateOptimalFrameCount videoBuffer.length) hcalls
  have hshape := processVideo_miss_ok env cache videoBuffer filename hmiss hmk hwrite _ _ hext
  rw [hok] at hshape
  injection hshape with h
  subst h
  have hn : 0 < calculateOptimalFrameCount videoBuffer.length :=
    lt_of_lt_of_le (by norm_num) (calculateOptimalFrameCount_bounds videoBuffer.length).1
  simp only
  rw [thumbAfter_range env _ hn]

/-- Witness for C5 at a concrete environment where the first timestamp
yields the byte 3: the thumbnail is its base64 encoding. -/
theorem claim5_amended_thumbnail_witness :
    (getOk emptyAnalysis (processVideo envThumbOk [] [] "clip.mp4").res).thumbnail =
      some "Aw==" := by
  have h := claim5_amended_thumbnail envThumbOk [] [] "clip.mp4"
    (getOk emptyAnalysis (processVideo envThumbOk [] [] "clip.mp4").res) rfl rfl rfl
    (fun _ _ => rfl) rfl
  rw [h]
  rfl

/-! ### Claim C6 -/

theorem timestampsOf_probe_cons (calls : List Call) :
    timestampsOf (Call.probe :: calls) = timestampsOf calls := by
  simp [timestampsOf]

theorem timestampsOf_map_frames (c : ℤ) (l : List ℕ) :
    timestampsOf (l.map (fun i => Call.ffmpegFrame i ((i : ℤ) * c))) =
      l.map (fun (i : ℕ) => (i : ℤ) * c) := by
  induction l with
  | nil => rfl
  | cons x xs ih =>
    simp only [List.map_cons, timestampsOf, List.filterMap_cons] at ih ⊢
    rw [ih]

/-- Counterexample to C6 as stated: with probed duration 2 and frame count
3 the claimed timestamps `i * floor(probedDuration / frameCount)` are all
0 (for the exclusive and the inclusive reading of the index range alike),
but the timestamps of the extraction calls actually issued are 0, 1, 2,
because the code clamps the spacing at a minimum of 1. -/
theorem claim6_counterexample :
    timestampsOf (extractKeyFrames envProbeTwo 3).calls = [0, 1, 2] ∧
    (List.range 3).map
      (fun (i : ℕ) => (i : ℤ) * ⌊(getVideoDuration envProbeTwo).toRat / ((3 : ℕ) : ℚ)⌋) =
      [0, 0, 0] ∧
    (List.range 4).map
      (fun (i : ℕ) => (i : ℤ) * ⌊(getVideoDuration envProbeTwo).toRat / ((3 : ℕ) : ℚ)⌋) =
      [0, 0, 0, 0] ∧
    ([0, 1, 2] : List ℤ) ≠ [0, 0, 0] := by
  have hbridge : Frac.floor (Frac.divNat (getVideoDuration envProbeTwo) 3) =
      ⌊(getVideoDuration envProbeTwo).toRat / ((3 : ℕ) : ℚ)⌋ := by
    rw [Frac.floor_toRat, Frac.toRat_divNat]
  have hfloor : ⌊(getVideoDuration envProbeTwo).toRat / ((3 : ℕ) : ℚ)⌋ = 0 := by
    rw [← hbridge]
    decide
  refine ⟨by decide, ?_, ?_, by decide⟩
  · rw [hfloor]
    decide
  · rw [hfloor]
    decide

/-- Claim C6 (amended): when every decoder call succeeds, the timestamps
of the issued extraction calls are exactly
`i * max(1, floor(probedDuration / frameCount))` for `i` in
`0, ..., frameCount - 1` — the probed duration coming from the Media
Prober and the spacing clamped below at 1. -/
theorem claim6_amended_timestamps (env : Env) (n : ℕ)
    (hcalls : ∀ i, i < n → env.frameCall i = Except.ok ()) :
    timestampsOf (extractKeyFrames env n).calls =
      (List.range n).map
        (fun (i : ℕ) => (i : ℤ) * Max.max 1 ⌊(getVideoDuration env).toRat / ((n : ℕ) : ℚ)⌋) := by
  have hbridge : Frac.floor (Frac.divNat (getVideoDuration env) n) =
      ⌊(getVideoDuration env).toRat / ((n : ℕ) : ℚ)⌋ := by
    rw [Frac.floor_toRat, Frac.toRat_divNat]
  rw [extractKeyFrames_calls_of_calls_ok env n hcalls, timestampsOf_probe_cons,
    timestampsOf_map_frames, hbridge]

/-- Witness for C6 at probed duration 2 and frame count 3: both the
embedded extraction and the amended formula give timestamps 0, 1, 2. -/
theorem claim6_amended_timestamps_witness :
    timestampsOf (extractKeyFrames envProbeTwo 3).calls = [0, 1, 2] ∧
    (List.range 3).map
      (fun (i : ℕ) => (i : ℤ) * Max.max 1 ⌊(getVideoDuration envProbeTwo).toRat / ((3 : ℕ) : ℚ)⌋) =
      [0, 1, 2] := by
  constructor
  · decide
  · rw [← claim6_amended_timestamps envProbeTwo 3 (fun _ _ => rfl)]
    decide

/-! ### Claim C3 -/

theorem estimateAudioDuration_eq_floor (m : ℕ) :
    (estimateAudioDuration m : ℤ) = ⌊(m : ℚ) / (16000 * 2) + 1 / 2⌋ := by
  unfold estimateAudioDuration
  have hden : 0 < (Frac.divNat (Frac.ofNat m) (16000 * 2)).den := by
    norm_num [Frac.divNat, Frac.ofNat]
  have hround := Frac.round_toRat (Frac.divNat (Frac.ofNat m) (16000 * 2)) hden
  have htoRat : (Frac.divNat (Frac.ofNat m) (16000 * 2)).toRat = (m : ℚ) / (16000 * 2) := by
    rw [Frac.toRat_divNat, Frac.toRat_ofNat]
    norm_num
  rw [htoRat] at hround
  have hnonneg : 0 ≤ Frac.round (Frac.divNat (Frac.ofNat m) (16000 * 2)) := by
    rw [hround]
    refine Int.le_floor.mpr ?_
    push_cast
    positivity
  rw [Int.toNat_of_nonneg hnonneg, hround]

/-- Counterexample to C3 as stated: the speech-to-text service reports a
duration of 50 seconds, but the duration in the result of the audio stage is
the byte-length estimate 0 — the reported value is never consulted. -/
theorem claim3_counterexample :
    envAudioReported.whisper =
      Except.ok ⟨"hello world", some (Frac.ofNat 50), some "en"⟩ ∧
    (Frac.ofNat 50).toRat = 50 ∧
    (extractAudioTranscript envAudioReported).res = Except.ok ⟨"hello world", some 0⟩ ∧
    (0 : ℕ) ≠ 50 := by
  refine ⟨rfl, ?_, rfl, by decide⟩
  rw [Frac.toRat_ofNat]
  norm_num

/-- Successful audio stage: the transcript is the service text and the
duration the byte-length estimate. -/
theorem extractAudioTranscript_ok_shape (env : Env) (a : AudioAnalysis)
    (hok : (extractAudioTranscript env).res = Except.ok a) :
    ∃ w, env.whisper = Except.ok w ∧
      a = ⟨w.text, some (estimateAudioDuration (audioByteLength env))⟩ := by
  unfold extractAudioTranscript at hok
  rcases hac : env.audioCall with e | u <;> rw [hac] at hok <;> simp only at hok
  · exact Except.noConfusion hok
  · rcases har : env.audioRead with e | audioBuffer <;> rw [har] at hok <;> simp only at hok
    · exact Except.noConfusion hok
    · rcases hw : env.whisper with e | w <;> rw [hw] at hok <;> simp only at hok
      · exact Except.noConfusion hok
      · injection hok with h
        refine ⟨w, rfl, ?_⟩
        rw [← h]
        unfold audioByteLength
        rw [har]

/-- Claim C3 (amended): the duration in the result of the pipeline is always
estimated from the transcoded audio byte length as
`Math.round(bytes / (sampleRate * bytesPerSample))` for the fixed mono
16 kHz 16-bit PCM format; a duration reported by the speech-to-text
service is never used (only the transcript text is). -/
theorem claim3_amended_duration_estimated (env : Env) (a : AudioAnalysis)
    (hok : (extractAudioTranscript env).res = Except.ok a) :
    a.duration = some (estimateAudioDuration (audioByteLength env)) ∧
    ((estimateAudioDuration (audioByteLength env) : ℤ) =
      ⌊(audioByteLength env : ℚ) / (16000 * 2) + 1 / 2⌋) ∧
    (∀ w, env.whisper = Except.ok w → a.transcript = w.text) := by
  obtain ⟨w, hw, ha⟩ := extractAudioTranscript_ok_shape env a hok
  subst ha
  refine ⟨rfl, estimateAudioDuration_eq_floor _, ?_⟩
  intro w2 hw2
  rw [hw] at hw2
  injection hw2 with h2
  rw [h2]

/-- Witness for C3 at the concrete audio environment: the result duration
is the byte-length estimate, which evaluates to 0 for the 5-byte audio. -/
theorem claim3_amended_duration_estimated_witness :
    (getOk ⟨"", none⟩ (extractAudioTranscript envAudioReported).res).duration =
      some (estimateAudioDuration (audioByteLength envAudioReported)) ∧
    estimateAudioDuration (audioByteLength envAudioReported) = 0 := by
  have h := claim3_amended_duration_estimated envAudioReported
    (getOk ⟨"", none⟩ (extractAudioTranscript envAudioReported).res) rfl
  exact ⟨h.1, rfl⟩

/-! ### Claim C4 -/

set_option maxRecDepth 8000 in
/-- Claim C4 is a code bug: the metadata footer interpolates the length of
the key-moments list, not the frame count.  In `envKeyMoments` one frame
is extracted and analysed (`frameCount = 1`), two key moments are parsed,
and the footer of the combined content reads 2 where the spec and
the label of analysed frames promise the frame count 1. -/
theorem claim4_footer_shows_keyMoments_count :
    (processVideo envKeyMoments [] [] "clip.mp4").res = Except.ok resKeyMoments ∧
    resKeyMoments.frameCount = 1 ∧
    resKeyMoments.keyMoments.length = 2 ∧
    strContains resKeyMoments.combinedContent "Frames Analyzed: 2" = true ∧
    strContains resKeyMoments.combinedContent "Frames Analyzed: 1" = false :=
  ⟨rfl, rfl, rfl, by decide, by decide⟩

/-! ### Claim C7 -/

/-- Claim C7: for every input byte length the target frame count equals
`min(maxFrames, max(minFrames, ceil(estimatedDurationSeconds /
frameIntervalSeconds)))` with the estimate `max(10, bytes / 2^20 * 10)`
derived from the byte length alone; the computation is a pure function of
the byte length and always satisfies `3 ≤ count ≤ 12`. -/
theorem claim7_frame_count_formula (n : ℕ) :
    ((calculateOptimalFrameCount n : ℤ) =
      Min.min 12 (Max.max 3 ⌈Max.max 10 ((n : ℚ) / (1024 * 1024) * 10) / 5⌉)) ∧
    3 ≤ calculateOptimalFrameCount n ∧ calculateOptimalFrameCount n ≤ 12 := by
  refine ⟨?_, calculateOptimalFrameCount_bounds n⟩
  unfold calculateOptimalFrameCount
  set x : ℤ := Frac.ceil (Frac.divNat
    (Frac.max (Frac.ofNat 10) (Frac.mulNat (Frac.divNat (Frac.ofNat n) (1024 * 1024)) 10)) 5)
    with hx
  have h3 : (3 : ℤ) ≤ Min.min 12 (Max.max 3 x) := le_min (by norm_num) (le_max_left 3 x)
  rw [Int.toNat_of_nonneg (le_trans (by norm_num) h3)]
  have hxval : x = ⌈Max.max 10 ((n : ℚ) / (1024 * 1024) * 10) / 5⌉ := by
    rw [hx, Frac.ceil_toRat, Frac.toRat_divNat,
      Frac.toRat_max _ _ (by norm_num [Frac.ofNat])
        (by norm_num [Frac.mulNat, Frac.divNat, Frac.ofNat]),
      Frac.toRat_ofNat, Frac.toRat_mulNat, Frac.toRat_divNat, Frac.toRat_ofNat]
    norm_num
  rw [hxval]

/-! ### Claim C8 -/

/-- Claim C8: whenever a call of the pipeline returned a result, calling
it again with byte-identical input and identical filename — under any
collaborator behaviour whatsoever — issues no external calls, creates no
workspace, emits exactly one progress event (stage synthesizing, progress
100), leaves the cache unchanged, and returns a result structurally equal
to the result of the first call. -/
theorem claim8_cache_idempotent (env env2 : Env) (cache : Cache) (videoBuffer : Buf)
    (filename : String) (r : VideoAnalysis)
    (hok : (processVideo env cache videoBuffer filename).res = Except.ok r) :
    processVideo env2 (processVideo env cache videoBuffer filename).cache videoBuffer filename =
      ⟨Except.ok r, (processVideo env cache videoBuffer filename).cache, [],
        [⟨Stage.synthesizing, 100, "Using cached results"⟩], 0⟩ :=
  processVideo_cache_hit env2 _ videoBuffer filename r
    (processVideo_lookup_of_ok env cache videoBuffer filename r hok)

/-- Witness for C8: the second call after the completed doubly-degraded
run returns the identical result with no calls and no workspace. -/
theorem claim8_cache_idempotent_witness :
    processVideo envAllDegraded (processVideo envAllDegraded [] [] "clip.mp4").cache []
      "clip.mp4" =
      ⟨Except.ok resAllDegraded, (processVideo envAllDegraded [] [] "clip.mp4").cache, [],
        [⟨Stage.synthesizing, 100, "Using cached results"⟩], 0⟩ :=
  claim8_cache_idempotent envAllDegraded envAllDegraded [] [] "clip.mp4" resAllDegraded rfl

/-! ### Claim C9 -/

/-- Claim C9: for `n` extracted frames and the fixed batch size 10, a
successful visual-analysis stage issues exactly `ceil(n / 10)` vision
calls, each carrying at most 10 images, followed by one summarizer call
whose input is the concatenation, in call order, of the per-batch
description lists parsed from the vision responses. -/
theorem claim9_batching (env : Env) (frames : List Buf) (v : VisualAnalysis)
    (hok : (analyzeFrames env frames).res = Except.ok v) :
    (analyzeFrames env frames).calls =
      ((chunkArray frames 10).enum.map fun p => Call.vision p.1 p.2.length) ++
        [Call.summarize (dsFrom env (chunkArray frames 10).enum)] ∧
    (chunkArray frames 10).length = (frames.length + 10 - 1) / 10 ∧
    (∀ c ∈ chunkArray frames 10, c.length ≤ 10) := by
  refine ⟨(analyzeFrames_ok_shape env frames v hok).1, ?_,
    fun c hc => chunkArray_chunk_le_ten frames c hc⟩
  rw [chunkArray_length_ten]
  omega

/-- Witness for C9 at twelve concrete frames: two batches (of 10 and 2
images), two vision calls, then the summarize call. -/
theorem claim9_batching_witness :
    (analyzeFrames envKeyMoments twelveFrames).calls =
      ((chunkArray twelveFrames 10).enum.map fun p => Call.vision p.1 p.2.length) ++
        [Call.summarize (dsFrom envKeyMoments (chunkArray twelveFrames 10).enum)] ∧
    (chunkArray twelveFrames 10).length = 2 := by
  have h := claim9_batching envKeyMoments twelveFrames
    (getOk ⟨"", []⟩ (analyzeFrames envKeyMoments twelveFrames).res) rfl
  exact ⟨h.1, rfl⟩

/-! ### Claim C10 -/

/-- Claim C10: every completed run — in particular one in which both the
visual and the audio stage were replaced by their fallbacks — stores its
result in the cache under the (filename, byteLength) key, and any
subsequent call with that key returns it directly from the cache without
running any stage; conversely, when `processVideo` throws, the cache is
left unchanged. -/
theorem claim10_cache_degraded_and_errors (env : Env) (cache : Cache) (videoBuffer : Buf)
    (filename : String) :
    (∀ r, (processVideo env cache videoBuffer filename).res = Except.ok r →
      List.lookup (cacheKey filename videoBuffer)
        (processVideo env cache videoBuffer filename).cache = some r ∧
      ∀ env2, processVideo env2 (processVideo env cache videoBuffer filename).cache
          videoBuffer filename =
        ⟨Except.ok r, (processVideo env cache videoBuffer filename).cache, [],
          [⟨Stage.synthesizing, 100, "Using cached results"⟩], 0⟩) ∧
    (∀ e, (processVideo env cache videoBuffer filename).res = Except.error e →
      (processVideo env cache videoBuffer filename).cache = cache) := by
  constructor
  · intro r hok
    have hl := processVideo_lookup_of_ok env cache videoBuffer filename r hok
    exact ⟨hl, fun env2 => processVideo_cache_hit env2 _ videoBuffer filename r hl⟩
  · intro e herr
    exact processVideo_error_cache env cache videoBuffer filename e herr

/-- Witness for C10: the doubly-degraded result (both fallback values
visible in its fields) is cached under its key, and the fatally failing
run leaves the empty cache empty. -/
theorem claim10_cache_degraded_and_errors_witness :
    List.lookup (cacheKey "clip.mp4" []) (processVideo envAllDegraded [] [] "clip.mp4").cache =
      some resAllDegraded ∧
    resAllDegraded.visualSummary =
      "Frame analysis failed - continuing with audio transcript only" ∧
    resAllDegraded.audioTranscript =
      "Audio transcript extraction failed - continuing with visual analysis only" ∧
    (processVideo envDecoderFail [] [] "clip.mp4").cache = [] := by
  refine ⟨?_, rfl, rfl, ?_⟩
  · exact ((claim10_cache_degraded_and_errors envAllDegraded [] [] "clip.mp4").1
      resAllDegraded rfl).1
  · exact (claim10_cache_degraded_and_errors envDecoderFail [] [] "clip.mp4").2
      "Failed to process video: Frame extraction failed: FFmpeg failed with code 1: boom" rfl

/-! ### The cache invariant is preserved -/

theorem processVideo_preserves_goodCache (env : Env) (cache : Cache) (videoBuffer : Buf)
    (filename : String) (h : GoodCache cache) :
    GoodCache (processVideo env cache videoBuffer filename).cache := by
  rcases hres : (processVideo env cache videoBuffer filename).res with e | r
  · rw [processVideo_error_cache env cache videoBuffer filename e hres]
    exact h
  · rcases processVideo_ok_cases env cache videoBuffer filename r hres with ⟨_, hc⟩ | ⟨hc, v, a, hcc⟩
    · rw [hc]
      exact h
    · rw [hc]
      intro k r2 hk
      simp only [List.lookup] at hk
      split at hk
      · injection hk with h2
        subst h2
        rw [hcc]
        exact synthesizeContent_markers v a
      · exact h k r2 hk
